import Mathlib

/-!
Verification of the sentiment-analysis service's request-normalization and
truncation-policy pipeline.

Strings are modelled as `List Char` with ASCII semantics (the service's
regexes and `str` operations are modelled on the ASCII fragment).  Python
floats are modelled as rationals.  The external transformer pipeline is an
opaque parameter `classify : Str → RawResult`.
-/

abbrev Str := List Char

/-- ASCII whitespace, as matched by Python's `\s` and by `str.split()`:
space, tab, newline, carriage return, vertical tab, form feed. -/
def isSpace (c : Char) : Bool :=
  c = ' ' || c = '\t' || c = '\n' || c = '\r' || c = '\x0b' || c = '\x0c'

/-- ASCII word characters, as matched by Python's `\w`:
alphanumerics and the underscore. -/
def isWordChar (c : Char) : Bool :=
  c.isAlphanum || c = '_'

/-- Characters kept by the special-character filtering step
`re.sub(r'[^\w\s.,!?]', '', text)` in `preprocess_text`
(src/app/utils/preprocessing.py line 23). -/
def keepChar (c : Char) : Bool :=
  isWordChar c || isSpace c || c = '.' || c = ',' || c = '!' || c = '?'

/-- `text.lower()` (src/app/utils/preprocessing.py line 14), ASCII case mapping. -/
def pyLower (s : Str) : Str :=
  s.map Char.toLower

/-- Scanner for `re.sub(r'<.*?>', '', text)` (src/app/utils/preprocessing.py
line 17).  The regex removes, left to right, every segment from a `<` to the
nearest following `>` with no newline in between (`.` does not match `\n`);
a `<` with no such `>` is left as-is.  The scanner buffers the characters seen
since an open `<` (in reverse); when a `>` arrives the whole buffered segment
is dropped, and when a newline or the end of input arrives before any `>` the
buffered segment could not have been part of a match (there is no `>` between
any buffered position and the failure point), so it is replayed literally. -/
def rhAux : Str → Option Str → Str
  | [], none => []
  | [], some buf => '<' :: buf.reverse
  | c :: rest, none =>
    if c = '<' then rhAux rest (some []) else c :: rhAux rest none
  | c :: rest, some buf =>
    if c = '>' then rhAux rest none
    else if c = '\n' then ('<' :: buf.reverse) ++ c :: rhAux rest none
    else rhAux rest (some (c :: buf))

/-- `re.sub(r'<.*?>', '', text)`: remove HTML-tag-like segments. -/
def removeHtml (s : Str) : Str :=
  rhAux s none

/-- Does `s` start at its head with a match of `https?://\S+|www\.\S+`?
True when one of the three literal prefixes is present and is followed by at
least one non-whitespace character (the mandatory `\S`). -/
def urlTrigger (s : Str) : Bool :=
  (("https://").data.isPrefixOf s && nextNonSpace s 8) ||
  (("http://").data.isPrefixOf s && nextNonSpace s 7) ||
  (("www.").data.isPrefixOf s && nextNonSpace s 4)
where
  /-- Is there a non-whitespace character at position `n` of `s`? -/
  nextNonSpace (s : Str) (n : Nat) : Bool :=
    match s.drop n with
    | [] => false
    | c :: _ => !isSpace c

/-- Scanner for `re.sub(r'https?://\S+|www\.\S+', '', text)`
(src/app/utils/preprocessing.py line 20).  In mode `false` the scanner looks
for a match starting at the current position; on a match it drops the leading
character and switches to mode `true`, which drops the rest of the maximal
non-whitespace run (`\S+` is greedy, and no match can start inside the
dropped run since the sub-scan resumes after it). -/
def ruAux : Bool → Str → Str
  | _, [] => []
  | true, c :: rest => if isSpace c then c :: ruAux false rest else ruAux true rest
  | false, c :: rest => if urlTrigger (c :: rest) then ruAux true rest else c :: ruAux false rest

/-- `re.sub(r'https?://\S+|www\.\S+', '', text)`: remove URL tokens. -/
def removeUrls (s : Str) : Str :=
  ruAux false s

/-- `re.sub(r'[^\w\s.,!?]', '', text)`: drop every character outside
alphanumerics, underscore, whitespace and `. , ! ?`. -/
def filterChars (s : Str) : Str :=
  s.filter keepChar

/-- Scanner for `re.sub(r'\s+', ' ', text)` (src/app/utils/preprocessing.py
line 26).  The flag records whether the scanner is inside a whitespace run
whose single replacement space has already been emitted. -/
def cwAux : Str → Bool → Str
  | [], _ => []
  | c :: rest, b =>
    if isSpace c then
      if b then cwAux rest true else ' ' :: cwAux rest true
    else c :: cwAux rest false

/-- `re.sub(r'\s+', ' ', text)`: collapse whitespace runs to single spaces. -/
def collapseWs (s : Str) : Str :=
  cwAux s false

/-- `text.strip()`: drop leading and trailing whitespace. -/
def pyStrip (s : Str) : Str :=
  (((s.dropWhile isSpace).reverse).dropWhile isSpace).reverse

/-- `preprocess_text` (src/app/utils/preprocessing.py lines 3-28):
lowercase, strip HTML-tag-like segments, strip URLs, filter special
characters, collapse whitespace and trim. -/
def preprocess_text (text : Str) : Str :=
  pyStrip (collapseWs (filterChars (removeUrls (removeHtml (pyLower text)))))

/-- `text.split()`: split on whitespace runs, discarding empty pieces.
Structurally: a non-space head either starts a fresh word (when followed by
whitespace or the end) or is prepended to the first word of the tail's split. -/
def pySplit : Str → List Str
  | [] => []
  | c :: s =>
    if isSpace c then pySplit s
    else
      match s with
      | [] => [[c]]
      | d :: _ =>
        if isSpace d then [c] :: pySplit s
        else
          match pySplit s with
          | [] => [[c]]
          | w :: ws => (c :: w) :: ws

/-- `" ".join(words)`: interleave single spaces between the words. -/
def joinWords : List Str → Str
  | [] => []
  | [w] => w
  | w :: ws => w ++ ' ' :: joinWords ws

/-- `len(text.split())`: the whitespace-separated word count. -/
def wordCount (s : Str) : Nat :=
  (pySplit s).length

/-- Does `p` occur as a contiguous substring of `s`? -/
def hasSubstr (p : Str) : Str → Bool
  | [] => p.isEmpty
  | c :: rest => p.isPrefixOf (c :: rest) || hasSubstr p rest

/-!
The sentiment model wrapper (src/app/models/sentiment.py).  The transformer
pipeline itself is external: it is modelled as an opaque argument
`classify : Str → RawResult` giving the raw label/score pair of
`self.sentiment_pipeline(text)[0]`.
-/

/-- The raw result of the external pipeline: a label string (`"POSITIVE"` or
`"NEGATIVE"` per its contract) and a score. -/
structure RawResult where
  label : Str
  score : ℚ
deriving DecidableEq

/-- The per-label score dictionary built by `SentimentAnalyzer.analyze`. -/
structure DetailedScores where
  POSITIVE : ℚ
  NEGATIVE : ℚ
deriving DecidableEq

/-- The dictionary returned by `SentimentAnalyzer.analyze`. -/
structure AnalysisOut where
  sentiment : Str
  confidence : ℚ
  normalized_score : ℚ
  detailed_scores : DetailedScores
deriving DecidableEq

/-- The unconditional long-text guard of `SentimentAnalyzer.analyze`
(src/app/models/sentiment.py lines 28-30):
`words = text.split(); if len(words) > 250: text = " ".join(words[:250])`. -/
def truncate250 (text : Str) : Str :=
  let words := pySplit text
  if 250 < words.length then joinWords (words.take 250) else text

/-- The result mapping of `SentimentAnalyzer.analyze`
(src/app/models/sentiment.py lines 36-54). -/
def scoreMap (result : RawResult) : AnalysisOut :=
  let label := result.label
  let score := result.score
  let sentiment := if label = ("POSITIVE").data then ("positive").data else ("negative").data
  let normalized_score := if sentiment = ("positive").data then score else -score
  { sentiment := sentiment
    confidence := score
    normalized_score := normalized_score
    detailed_scores :=
      { POSITIVE := if sentiment = ("positive").data then score else 1 - score
        NEGATIVE := if sentiment = ("negative").data then score else 1 - score } }

/-- `SentimentAnalyzer.analyze` (src/app/models/sentiment.py lines 15-54):
truncate the input to at most 250 words, call the pipeline on the result,
and map the raw label/score into the output dictionary. -/
def SentimentAnalyzer_analyze (classify : Str → RawResult) (text : Str) : AnalysisOut :=
  scoreMap (classify (truncate250 text))

/-!
The API layer (src/app/api/endpoints.py).
-/

/-- `ReviewRequest` (src/app/api/endpoints.py lines 15-19).  `truncate` is a
declared field with default `True`, so every parsed instance carries a
concrete value. -/
structure ReviewRequest where
  text : Str
  review_id : Option Str := none
  source : Option Str := none
  truncate : Bool := true
deriving DecidableEq

/-- `SentimentResponse` (src/app/api/endpoints.py lines 21-28). -/
structure SentimentResponse where
  sentiment : Str
  confidence : ℚ
  normalized_score : ℚ
  detailed_scores : DetailedScores
  review_id : Option Str
  source : Option Str
  truncated : Bool
deriving DecidableEq

/-- `BatchReviewRequest` (src/app/api/endpoints.py lines 30-33). -/
structure BatchReviewRequest where
  reviews : List ReviewRequest
  truncate : Bool := true
deriving DecidableEq

/-- `BatchSentimentResponse` (src/app/api/endpoints.py lines 35-36). -/
structure BatchSentimentResponse where
  results : List SentimentResponse
deriving DecidableEq

/-- An `HTTPException` raised by an endpoint: status code and detail text. -/
structure HttpError where
  status : Nat
  detail : Str
deriving DecidableEq

/-- Python's `str()` of the optional `review_id`, as interpolated by the
batch error f-string (`None` prints as `"None"`). -/
def pyStrOfOptId : Option Str → Str
  | none => ("None").data
  | some s => s

/-- The 400 detail of the single-item endpoint (src/app/api/endpoints.py line 68). -/
def singleLimitMsg : Str :=
  ("Text exceeds model\x27s token limit (>250 words / ~512 tokens) and truncation is disabled").data

/-- The 400 detail of the batch endpoint's pre-check (src/app/api/endpoints.py line 126). -/
def batchLimitMsg (review_id : Option Str) : Str :=
  ("Review ").data ++ pyStrOfOptId review_id ++
    (" exceeds model\x27s token limit (>250 words / ~512 tokens) and truncation is disabled").data

/-- The 400 detail of the batch endpoint's post-normalization recheck
(src/app/api/endpoints.py line 141). -/
def recheckMsg : Str :=
  ("Text is too long after preprocessing and truncation is disabled").data

/-- The `processed_text` computed by `analyze_sentiment` before the classifier
call (src/app/api/endpoints.py lines 61-76): normalization followed by
truncation to the first 500 words when the raw text had more than 250 words
and truncation is enabled. -/
def single_processed_text (review : ReviewRequest) : Str :=
  let words := pySplit review.text
  let was_truncated : Bool := decide (250 < words.length)
  let processed := preprocess_text review.text
  if was_truncated && review.truncate then joinWords ((pySplit processed).take 500)
  else processed

/-- `analyze_sentiment` (src/app/api/endpoints.py lines 40-93): the single-item
endpoint.  Raises 400 when the raw text has more than 250 words and truncation
is disabled; otherwise normalizes, truncates to 500 words when applicable,
analyzes, and assembles the response. -/
def analyze_sentiment (classify : Str → RawResult) (review : ReviewRequest) :
    Except HttpError SentimentResponse :=
  let words := pySplit review.text
  let was_truncated : Bool := decide (250 < words.length)
  if was_truncated && !review.truncate then
    .error ⟨400, singleLimitMsg⟩
  else
    let a := SentimentAnalyzer_analyze classify (single_processed_text review)
    .ok { sentiment := a.sentiment
          confidence := a.confidence
          normalized_score := a.normalized_score
          detailed_scores := a.detailed_scores
          review_id := review.review_id
          source := review.source
          truncated := was_truncated && review.truncate }

/-- The `hasattr(review, 'truncate')` test of the batch loop
(src/app/api/endpoints.py line 114).  `truncate` is a declared pydantic field
with a default, so every `ReviewRequest` instance carries the attribute and
the test is always true. -/
def hasattr_truncate (_ : ReviewRequest) : Bool :=
  true

/-- The `processed_text` computed by the batch loop before the classifier call
(src/app/api/endpoints.py lines 129-135): normalization followed by truncation
to the first 250 words when the raw text had more than 250 words and
truncation is enabled. -/
def batch_processed_text (review : ReviewRequest) : Str :=
  let words := pySplit review.text
  let was_truncated : Bool := decide (250 < words.length)
  let processed := preprocess_text review.text
  if was_truncated && review.truncate then joinWords ((pySplit processed).take 250)
  else processed

/-- One iteration of the `analyze_batch` loop (src/app/api/endpoints.py
lines 112-153): default the per-item `truncate` from the global flag when the
attribute is absent (it never is), pre-check the raw word count, normalize and
truncate, re-check the processed word count, analyze, and build the item
response. -/
def processBatchItem (classify : Str → RawResult) (globalTruncate : Bool)
    (review0 : ReviewRequest) : Except HttpError SentimentResponse :=
  let review := if hasattr_truncate review0 then review0
                else { review0 with truncate := globalTruncate }
  let words := pySplit review.text
  let was_truncated : Bool := decide (250 < words.length)
  if was_truncated && !review.truncate then
    .error ⟨400, batchLimitMsg review.review_id⟩
  else
    let processed_text := batch_processed_text review
    if decide (250 < (pySplit processed_text).length) && !review.truncate then
      .error ⟨400, recheckMsg⟩
    else
      let a := SentimentAnalyzer_analyze classify processed_text
      .ok { sentiment := a.sentiment
            confidence := a.confidence
            normalized_score := a.normalized_score
            detailed_scores := a.detailed_scores
            review_id := review.review_id
            source := review.source
            truncated := was_truncated && review.truncate }

/-- The batch loop: process the reviews in order, appending each result;
the first raised `HTTPException` aborts the whole batch and discards the
partial `results` list. -/
def batchGo (classify : Str → RawResult) (globalTruncate : Bool) :
    List ReviewRequest → Except HttpError (List SentimentResponse)
  | [] => .ok []
  | r :: rs =>
    match processBatchItem classify globalTruncate r with
    | .error e => .error e
    | .ok resp =>
      match batchGo classify globalTruncate rs with
      | .error e => .error e
      | .ok resps => .ok (resp :: resps)

/-- `analyze_batch` (src/app/api/endpoints.py lines 97-159): the batch
endpoint. -/
def analyze_batch (classify : Str → RawResult) (request : BatchReviewRequest) :
    Except HttpError BatchSentimentResponse :=
  match batchGo classify request.truncate request.reviews with
  | .error e => .error e
  | .ok results => .ok ⟨results⟩

-- Smoke checks of the embedding on concrete inputs (mirrors the repository's
-- own preprocessing tests).
example : preprocess_text ("Hello <b>World</b>!").data = ("hello world!").data := by decide
example : preprocess_text ("Check https://example.com now").data = ("check now").data := by decide
example : preprocess_text ("a,b;c!").data = ("a,bc!").data := by decide
example : preprocess_text ("  A   B  ").data = ("a b").data := by decide
example : pySplit ("one  two three ").data = [("one").data, ("two").data, ("three").data] := by decide
example : wordCount ("one  two three ").data = 3 := by decide
example : preprocess_text ("w;ww.foo").data = ("www.foo").data := by decide
example : preprocess_text ("www.foo").data = ([] : Str) := by decide
example : hasSubstr ("ww.").data ("awww.b").data = true := by decide

deriving instance DecidableEq for Except

/-- Word-counting automaton: `wcAux b s` is the number of words started inside
`s`, where `b` records whether the scan is currently inside a word that
already began.  Proof gadget relating `wordCount` to list structure. -/
def wcAux : Bool → Str → Nat
  | _, [] => 0
  | b, c :: rest =>
    if isSpace c then wcAux false rest
    else (if b then 0 else 1) + wcAux true rest

/-- A fixed classifier used for concrete witnesses: always `POSITIVE`
with score 9/10. -/
def constPos : Str → RawResult :=
  fun _ => ⟨("POSITIVE").data, 9 / 10⟩

/-- A concrete 251-word text (251 copies of `"w"`), used as witness input. -/
def longText251 : Str :=
  joinWords (List.replicate 251 (("w").data))

/-- A concrete 251-raw-word text whose normalization has only 250 words:
250 copies of `"a"` followed by the word `";"`, which the special-character
filter erases. -/
def fauxLongText : Str :=
  joinWords (List.replicate 250 (("a").data) ++ [(";").data])

example :
    (analyze_sentiment constPos { text := ("I love this").data }).map
      SentimentResponse.truncated = .ok false := by decide
example :
    (analyze_batch constPos { reviews := [{ text := ("bad").data, truncate := false }] }).map
      (fun r => r.results.length) = .ok 1 := by decide

/-!
Lemma layer 1: `pySplit` characteristic equations, well-formedness of the
produced words, and monotonicity of the word count under subsequences.
-/

theorem pySplit_cons_space {c : Char} (s : Str) (h : isSpace c = true) :
    pySplit (c :: s) = pySplit s := by
  simp [pySplit, h]

theorem pySplit_cons_cons_nonspace {c d : Char} (s : Str) (hc : isSpace c = false)
    (hd : isSpace d = false) :
    pySplit (c :: d :: s) =
      match pySplit (d :: s) with
      | [] => [[c]]
      | w :: ws => (c :: w) :: ws := by
  simp [pySplit, hc, hd]

theorem pySplit_cons_nonspace :
    ∀ (s : Str) {c : Char}, isSpace c = false →
      pySplit (c :: s) =
        (c :: s.takeWhile (fun d => !isSpace d)) ::
          pySplit (s.dropWhile (fun d => !isSpace d)) := by
  intro s
  induction s with
  | nil => intro c h; simp [pySplit, h]
  | cons d s ih =>
    intro c h
    by_cases hd : isSpace d
    · simp [pySplit, h, hd, List.takeWhile_cons, List.dropWhile_cons]
    · have hd' : isSpace d = false := by simpa using hd
      rw [pySplit_cons_cons_nonspace s h hd', ih hd',
        List.takeWhile_cons, List.dropWhile_cons]
      simp [hd']

theorem pySplit_dropWhile_space (s : Str) :
    pySplit (s.dropWhile isSpace) = pySplit s := by
  induction s with
  | nil => rfl
  | cons c s ih =>
    by_cases h : isSpace c
    · rw [List.dropWhile_cons, if_pos h, ih, pySplit_cons_space s h]
    · rw [List.dropWhile_cons, if_neg h]

theorem pySplit_wf_fuel :
    ∀ (n : Nat) (s : Str), s.length ≤ n →
      ∀ w ∈ pySplit s, w ≠ [] ∧ (∀ c ∈ w, isSpace c = false) ∧ (∀ c ∈ w, c ∈ s) := by
  intro n
  induction n with
  | zero =>
    intro s hs w hw
    have : s = [] := List.length_eq_zero.mp (Nat.le_zero.mp hs)
    subst this
    simp [pySplit] at hw
  | succ n ih =>
    intro s hs w hw
    cases s with
    | nil => simp [pySplit] at hw
    | cons c s' =>
      simp only [List.length_cons, Nat.succ_le_succ_iff] at hs
      by_cases h : isSpace c
      · rw [pySplit_cons_space s' h] at hw
        rcases ih s' hs w hw with ⟨h1, h2, h3⟩
        exact ⟨h1, h2, fun d hd => List.mem_cons_of_mem c (h3 d hd)⟩
      · have h' : isSpace c = false := by simpa using h
        rw [pySplit_cons_nonspace s' h'] at hw
        rcases List.mem_cons.mp hw with rfl | hw
        · refine ⟨by simp, ?_, ?_⟩
          · intro e he
            rcases List.mem_cons.mp he with rfl | he
            · exact h'
            · have := List.mem_takeWhile_imp he
              simpa using this
          · intro e he
            rcases List.mem_cons.mp he with rfl | he
            · exact List.mem_cons_self e _
            · exact List.mem_cons_of_mem c ((List.takeWhile_sublist _).subset he)
        · have hlen : (s'.dropWhile (fun d => !isSpace d)).length ≤ n :=
            Nat.le_trans ((List.dropWhile_sublist _).length_le) hs
          rcases ih _ hlen w hw with ⟨h1, h2, h3⟩
          exact ⟨h1, h2, fun e he =>
            List.mem_cons_of_mem c ((List.dropWhile_sublist _).subset (h3 e he))⟩

theorem pySplit_wf (s : Str) :
    ∀ w ∈ pySplit s, w ≠ [] ∧ (∀ c ∈ w, isSpace c = false) ∧ (∀ c ∈ w, c ∈ s) :=
  pySplit_wf_fuel s.length s (Nat.le_refl _)

theorem wcAux_eq (s : Str) :
    wcAux false s = (pySplit s).length ∧
      wcAux true s = (pySplit (s.dropWhile (fun d => !isSpace d))).length := by
  induction s with
  | nil => exact ⟨rfl, rfl⟩
  | cons c s ih =>
    by_cases h : isSpace c
    · constructor
      · rw [wcAux, if_pos h, ih.1, pySplit_cons_space s h]
      · rw [wcAux, if_pos h, ih.1, List.dropWhile_cons]
        simp only [h, Bool.not_true, Bool.false_eq_true, if_false]
        rw [pySplit_cons_space s h]
    · simp only [Bool.not_eq_true] at h
      constructor
      · rw [wcAux, if_neg (by simp [h]), ih.2,
          pySplit_cons_nonspace s h]
        simp [Nat.add_comm]
      · rw [wcAux, if_neg (by simp [h]), ih.2, List.dropWhile_cons]
        simp [h]

theorem wcAux_false_eq (s : Str) : wcAux false s = wordCount s :=
  (wcAux_eq s).1

theorem wcAux_true_le_false (s : Str) : wcAux true s ≤ wcAux false s := by
  induction s with
  | nil => exact Nat.le_refl 0
  | cons c s ih =>
    by_cases h : isSpace c
    · simp [wcAux, h]
    · simp [wcAux, h]

theorem wcAux_false_le_true_succ (s : Str) : wcAux false s ≤ wcAux true s + 1 := by
  induction s with
  | nil => exact Nat.le_succ 0
  | cons c s ih =>
    by_cases h : isSpace c
    · simp [wcAux, h]
    · simp [wcAux, h]
      omega

theorem wcAux_mono {l1 l2 : Str} (h : l1.Sublist l2) :
    ∀ b, wcAux b l1 ≤ wcAux b l2 := by
  induction h with
  | slnil => intro b; exact Nat.le_refl 0
  | @cons l1 l2 c h ih =>
    intro b
    by_cases hc : isSpace c
    · rw [wcAux, if_pos hc]
      cases b with
      | false => exact ih false
      | true => exact Nat.le_trans (wcAux_true_le_false l1) (ih false)
    · rw [wcAux, if_neg hc]
      cases b with
      | false =>
        calc wcAux false l1 ≤ wcAux true l1 + 1 := wcAux_false_le_true_succ l1
        _ ≤ wcAux true l2 + 1 := Nat.add_le_add_right (ih true) 1
        _ = (if false then 0 else 1) + wcAux true l2 := by simp [Nat.add_comm]
      | true => simpa using ih true
  | @cons₂ l1 l2 c h ih =>
    intro b
    by_cases hc : isSpace c
    · rw [wcAux, wcAux, if_pos hc, if_pos hc]
      exact ih false
    · rw [wcAux, wcAux, if_neg hc, if_neg hc]
      exact Nat.add_le_add_left (ih true) _

theorem wordCount_mono {l1 l2 : Str} (h : l1.Sublist l2) :
    wordCount l1 ≤ wordCount l2 := by
  rw [← wcAux_false_eq, ← wcAux_false_eq]
  exact wcAux_mono h false

/-!
Lemma layer 2: splitting and joining.  `wfWords ws` states that `ws` is a
legitimate word list: every word is nonempty and whitespace-free — exactly
what `pySplit` produces.
-/

theorem pySplit_spacefree {w : Str} (hne : w ≠ []) (hsf : ∀ c ∈ w, isSpace c = false) :
    pySplit w = [w] := by
  cases w with
  | nil => exact absurd rfl hne
  | cons c w' =>
    rw [pySplit_cons_nonspace w' (hsf c (List.mem_cons_self c w'))]
    have htw : w'.takeWhile (fun d => !isSpace d) = w' :=
      List.takeWhile_eq_self_iff.mpr (by
        intro d hd
        simp [hsf d (List.mem_cons_of_mem c hd)])
    have hdw : w'.dropWhile (fun d => !isSpace d) = [] :=
      List.dropWhile_eq_nil_iff.mpr (by
        intro d hd
        simp [hsf d (List.mem_cons_of_mem c hd)])
    rw [htw, hdw]
    rfl

theorem pySplit_word_append {w : Str} (t : Str) (hne : w ≠ [])
    (hsf : ∀ c ∈ w, isSpace c = false)
    (ht : t = [] ∨ ∃ d t', t = d :: t' ∧ isSpace d = true) :
    pySplit (w ++ t) = w :: pySplit t := by
  rcases ht with rfl | ⟨d, t', rfl, hd⟩
  · rw [List.append_nil, pySplit_spacefree hne hsf]
    rfl
  · cases w with
    | nil => exact absurd rfl hne
    | cons c w' =>
      rw [List.cons_append, pySplit_cons_nonspace _ (hsf c (List.mem_cons_self c w'))]
      have hp : ∀ e ∈ w', (fun x => !isSpace x) e = true := by
        intro e he
        simp [hsf e (List.mem_cons_of_mem c he)]
      rw [List.takeWhile_append_of_pos hp, List.dropWhile_append_of_pos hp,
        List.takeWhile_cons_of_neg (by simp [hd]), List.dropWhile_cons_of_neg (by simp [hd]),
        List.append_nil, pySplit_cons_space t' hd]

theorem joinWords_cons (w : Str) (ws : List Str) (h : ws ≠ []) :
    joinWords (w :: ws) = w ++ ' ' :: joinWords ws := by
  cases ws with
  | nil => exact absurd rfl h
  | cons w' ws' => rfl

theorem pySplit_joinWords :
    ∀ (ws : List Str), (∀ w ∈ ws, w ≠ [] ∧ ∀ c ∈ w, isSpace c = false) →
      pySplit (joinWords ws) = ws := by
  intro ws
  induction ws with
  | nil => intro _; rfl
  | cons w ws ih =>
    intro hwf
    rcases hwf w (List.mem_cons_self w ws) with ⟨hne, hsf⟩
    cases ws with
    | nil => exact pySplit_spacefree hne hsf
    | cons w' ws' =>
      rw [joinWords_cons w _ (by simp),
        pySplit_word_append _ hne hsf (Or.inr ⟨' ', joinWords (w' :: ws'), rfl, by decide⟩),
        pySplit_cons_space _ (by decide),
        ih (fun v hv => hwf v (List.mem_cons_of_mem w hv))]

theorem wordCount_joinWords (ws : List Str)
    (h : ∀ w ∈ ws, w ≠ [] ∧ ∀ c ∈ w, isSpace c = false) :
    wordCount (joinWords ws) = ws.length := by
  rw [wordCount, pySplit_joinWords ws h]

theorem mem_joinWords {c : Char} :
    ∀ (ws : List Str), c ∈ joinWords ws → (∃ w ∈ ws, c ∈ w) ∨ c = ' ' := by
  intro ws
  induction ws with
  | nil => intro h; simp [joinWords] at h
  | cons w ws ih =>
    intro h
    cases ws with
    | nil => exact Or.inl ⟨w, List.mem_cons_self w [], h⟩
    | cons w' ws' =>
      rw [joinWords_cons w _ (by simp)] at h
      rcases List.mem_append.mp h with h | h
      · exact Or.inl ⟨w, List.mem_cons_self w _, h⟩
      · rcases List.mem_cons.mp h with rfl | h
        · exact Or.inr rfl
        · rcases ih h with ⟨v, hv, hc⟩ | h
          · exact Or.inl ⟨v, List.mem_cons_of_mem w hv, hc⟩
          · exact Or.inr h

/-!
Lemma layer 3: the collapse-and-strip normal form.  `re.sub(r'\s+', ' ', s).strip()`
equals `" ".join(s.split())`, which reduces all later reasoning about the final
normalization step to `pySplit`/`joinWords`.
-/

theorem cwAux_nonspace {c : Char} (rest : Str) (b : Bool) (h : isSpace c = false) :
    cwAux (c :: rest) b = c :: cwAux rest false := by
  simp [cwAux, h]

theorem cwAux_space_false {c : Char} (rest : Str) (h : isSpace c = true) :
    cwAux (c :: rest) false = ' ' :: cwAux rest true := by
  simp [cwAux, h]

theorem cwAux_true_eq (r : Str) :
    cwAux r true = collapseWs (r.dropWhile isSpace) := by
  induction r with
  | nil => rfl
  | cons e r' ih =>
    by_cases h : isSpace e
    · rw [List.dropWhile_cons_of_pos h, ← ih]
      simp [cwAux, h]
    · rw [List.dropWhile_cons_of_neg h, collapseWs,
        cwAux_nonspace r' true (by simpa using h),
        cwAux_nonspace r' false (by simpa using h)]

theorem collapseWs_cons_space {d : Char} (r : Str) (h : isSpace d = true) :
    collapseWs (d :: r) = ' ' :: collapseWs (r.dropWhile isSpace) := by
  rw [collapseWs, cwAux_space_false r h, cwAux_true_eq r]

theorem collapseWs_word_append {w : Str} (t : Str)
    (hsf : ∀ c ∈ w, isSpace c = false) :
    collapseWs (w ++ t) = w ++ collapseWs t := by
  induction w with
  | nil => rfl
  | cons c w' ih =>
    rw [List.cons_append, collapseWs,
      cwAux_nonspace _ false (hsf c (List.mem_cons_self c w')), List.cons_append]
    exact congrArg (c :: ·) (ih (fun e he => hsf e (List.mem_cons_of_mem c he)))

theorem pyStrip_cons_space {c : Char} (t : Str) (h : isSpace c = true) :
    pyStrip (c :: t) = pyStrip t := by
  rw [pyStrip, pyStrip, List.dropWhile_cons_of_pos h]

theorem pyStrip_append_space {c : Char} (t : Str) (h : isSpace c = true) :
    pyStrip (t ++ [c]) = pyStrip t := by
  rw [pyStrip, pyStrip, List.dropWhile_append]
  by_cases he : (t.dropWhile isSpace).isEmpty
  · rw [if_pos he]
    have : t.dropWhile isSpace = [] := by
      cases ht : t.dropWhile isSpace with
      | nil => rfl
      | cons x xs => rw [ht] at he; simp [List.isEmpty] at he
    rw [this, List.dropWhile_cons_of_pos h]
    rfl
  · rw [if_neg he, List.reverse_append]
    have : ([c] : Str).reverse = [c] := rfl
    rw [this, List.singleton_append, List.dropWhile_cons_of_pos h]

theorem pyStrip_id {t : Str}
    (hh : ∀ c, t.head? = some c → isSpace c = false)
    (hl : ∀ c, t.getLast? = some c → isSpace c = false) :
    pyStrip t = t := by
  cases t with
  | nil => rfl
  | cons c t' =>
    have hc : isSpace c = false := hh c rfl
    rw [pyStrip, List.dropWhile_cons_of_neg (by simp [hc])]
    cases hrev : (c :: t').reverse with
    | nil => exact absurd hrev (by simp)
    | cons d r =>
      have hd : (c :: t').getLast? = some d := by
        rw [List.getLast?_eq_head?_reverse, hrev]; rfl
      rw [List.dropWhile_cons_of_neg (by simp [hl d hd]), ← hrev, List.reverse_reverse]

theorem pyStrip_word_sep {w u : Str} (hwne : w ≠ [])
    (hwsf : ∀ c ∈ w, isSpace c = false)
    (hune : u ≠ []) (hu : ∀ c, u.head? = some c → isSpace c = false) :
    pyStrip (w ++ ' ' :: u) = w ++ ' ' :: pyStrip u := by
  cases w with
  | nil => exact absurd rfl hwne
  | cons c w' =>
    cases u with
    | nil => exact absurd rfl hune
    | cons e u' =>
      have hc : isSpace c = false := hwsf c (List.mem_cons_self c w')
      have he : isSpace e = false := hu e rfl
      have hwdrop : (c :: w').dropWhile isSpace = c :: w' :=
        List.dropWhile_cons_of_neg (by simp [hc])
      -- the leading strip is a no-op
      rw [pyStrip, List.dropWhile_append, hwdrop]
      have hne2 : ((c :: w').dropWhile isSpace).isEmpty = false := by
        rw [hwdrop]; rfl
      rw [hwdrop] at hne2
      rw [if_neg (by simp [hne2])]
      -- the trailing strip only acts on the reverse of `u`
      have hrd : ((e :: u').reverse.dropWhile isSpace).isEmpty = false := by
        cases hru : (e :: u').reverse.dropWhile isSpace with
        | nil =>
          have : ∀ x ∈ (e :: u').reverse, isSpace x = true :=
            List.dropWhile_eq_nil_iff.mp hru
          have := this e (by simp)
          rw [he] at this
          exact absurd this (by simp)
        | cons x xs => rfl
      rw [List.reverse_append]
      have hsrev : (' ' :: (e :: u')).reverse = (e :: u').reverse ++ [' '] := by
        simp
      rw [hsrev, List.append_assoc, List.dropWhile_append, if_neg (by rw [hrd]; simp),
        List.reverse_append, List.reverse_append]
      have hstrip : pyStrip (e :: u') = ((e :: u').reverse.dropWhile isSpace).reverse := by
        rw [pyStrip, List.dropWhile_cons_of_neg (by simp [he])]
      rw [hstrip]
      simp

theorem dropWhile_head_false {p : Char → Bool} :
    ∀ {l : Str} {a : Char} {t : Str}, l.dropWhile p = a :: t → p a = false := by
  intro l
  induction l with
  | nil => intro a t h; exact absurd h (by simp)
  | cons x xs ih =>
    intro a t h
    by_cases hx : p x
    · rw [List.dropWhile_cons_of_pos hx] at h
      exact ih h
    · rw [List.dropWhile_cons_of_neg hx] at h
      cases h
      simpa using hx

theorem strip_collapse_fuel :
    ∀ (n : Nat) (s : Str), s.length ≤ n →
      pyStrip (collapseWs s) = joinWords (pySplit s) := by
  intro n
  induction n with
  | zero =>
    intro s hs
    have : s = [] := List.length_eq_zero.mp (Nat.le_zero.mp hs)
    subst this
    rfl
  | succ n ih =>
    intro s hs
    cases s with
    | nil => rfl
    | cons c s' =>
      simp only [List.length_cons, Nat.succ_le_succ_iff] at hs
      by_cases hc : isSpace c
      · rw [collapseWs_cons_space s' hc, pyStrip_cons_space _ (by decide),
          ih _ (Nat.le_trans ((List.dropWhile_sublist _).length_le) hs),
          pySplit_dropWhile_space, pySplit_cons_space s' hc]
      · have hc' : isSpace c = false := by simpa using hc
        have hw0sf : ∀ e ∈ c :: s'.takeWhile (fun d => !isSpace d), isSpace e = false := by
          intro e he
          rcases List.mem_cons.mp he with rfl | he
          · exact hc'
          · simpa using List.mem_takeWhile_imp he
        have hsplit := pySplit_cons_nonspace s' hc'
        have hdecomp : c :: s' =
            (c :: s'.takeWhile (fun d => !isSpace d)) ++
              s'.dropWhile (fun d => !isSpace d) := by
          rw [List.cons_append, List.takeWhile_append_dropWhile]
        have hcollapse : collapseWs (c :: s') =
            (c :: s'.takeWhile (fun d => !isSpace d)) ++
              collapseWs (s'.dropWhile (fun d => !isSpace d)) := by
          conv_lhs => rw [hdecomp]
          exact collapseWs_word_append _ hw0sf
        have hw0id :
            pyStrip (c :: s'.takeWhile (fun d => !isSpace d)) =
              c :: s'.takeWhile (fun d => !isSpace d) :=
          pyStrip_id (fun e he => hw0sf e (List.mem_of_mem_head? he))
            (fun e he => hw0sf e (List.mem_of_getLast?_eq_some he))
        have hdroplen : (s'.dropWhile (fun d => !isSpace d)).length ≤ s'.length :=
          (List.dropWhile_sublist _).length_le
        rcases hsd : s'.dropWhile (fun d => !isSpace d) with _ | ⟨d, r2⟩
        · rw [hsd] at hcollapse hsplit
          rw [hcollapse, hsplit]
          have hnil : collapseWs [] = [] := rfl
          rw [hnil, List.append_nil, hw0id]
          rfl
        · rw [hsd] at hcollapse hsplit hdroplen
          have hd : isSpace d = true := by
            have := dropWhile_head_false (p := fun x => !isSpace x) hsd
            simpa using this
          rw [collapseWs_cons_space r2 hd] at hcollapse
          rw [pySplit_cons_space r2 hd] at hsplit
          rcases hr : r2.dropWhile isSpace with _ | ⟨e, r3⟩
          · rw [hr] at hcollapse
            have hnil : collapseWs [] = [] := rfl
            rw [hcollapse, hnil, hsplit]
            rw [← pySplit_dropWhile_space r2, hr]
            have : (' ' :: ([] : Str)) = [' '] := rfl
            rw [this, pyStrip_append_space _ (by decide), hw0id]
            rfl
          · rw [hr] at hcollapse
            have he : isSpace e = false := dropWhile_head_false (p := isSpace) hr
            have hcw : collapseWs (e :: r3) = e :: cwAux r3 false :=
              cwAux_nonspace r3 false he
            have hlen3 : (e :: r3).length ≤ n := by
              have h1 : (e :: r3).length ≤ r2.length := by
                rw [← hr]
                exact (List.dropWhile_sublist _).length_le
              have h2 : r2.length + 1 ≤ s'.length := by
                simpa using hdroplen
              omega
            rw [hcollapse, hsplit,
              pyStrip_word_sep (by simp) hw0sf (by rw [hcw]; simp)
                (by
                  intro x hx
                  rw [hcw] at hx
                  cases hx
                  exact he),
              ih _ hlen3, ← pySplit_dropWhile_space r2, hr,
              joinWords_cons]
            rw [pySplit_cons_nonspace r3 he]
            simp

theorem strip_collapse_eq_join (s : Str) :
    pyStrip (collapseWs s) = joinWords (pySplit s) :=
  strip_collapse_fuel s.length s (Nat.le_refl _)

/-!
Lemma layer 4: character facts about `Char.toLower`, subsequence facts for
each preprocessing stage, and monotonicity of the word count through
`preprocess_text`.
-/

theorem toNat_toLower_of_upper {c : Char} (h1 : 65 ≤ c.toNat) (h2 : c.toNat ≤ 90) :
    (Char.toLower c).toNat = c.toNat + 32 := by
  have hvalid : (c.toNat + 32).isValidChar := Or.inl (by omega)
  rw [Char.toLower, if_pos ⟨h1, h2⟩, Char.ofNat, dif_pos hvalid]
  rfl

theorem toLower_eq_of_not_upper {c : Char} (h : ¬(65 ≤ c.toNat ∧ c.toNat ≤ 90)) :
    Char.toLower c = c := by
  rw [Char.toLower, if_neg h]

theorem isSpace_toNat_le {d : Char} (h : isSpace d = true) : d.toNat ≤ 32 := by
  rw [isSpace] at h
  simp only [Bool.or_eq_true, decide_eq_true_eq] at h
  rcases h with ((((h | h) | h) | h) | h) | h <;> subst h <;> decide

theorem isSpace_eq_false_of_ge {d : Char} (h : 33 ≤ d.toNat) : isSpace d = false := by
  cases hd : isSpace d with
  | false => rfl
  | true => exact absurd (isSpace_toNat_le hd) (by omega)

theorem isSpace_toLower (c : Char) : isSpace (Char.toLower c) = isSpace c := by
  by_cases h : 65 ≤ c.toNat ∧ c.toNat ≤ 90
  · have h1 := toNat_toLower_of_upper h.1 h.2
    rw [isSpace_eq_false_of_ge (by omega), isSpace_eq_false_of_ge (by omega)]
  · rw [toLower_eq_of_not_upper h]

theorem toLower_idem (c : Char) : Char.toLower (Char.toLower c) = Char.toLower c := by
  by_cases h : 65 ≤ c.toNat ∧ c.toNat ≤ 90
  · have h1 := toNat_toLower_of_upper h.1 h.2
    exact toLower_eq_of_not_upper (by omega)
  · rw [toLower_eq_of_not_upper h, toLower_eq_of_not_upper h]

theorem wcAux_pyLower (s : Str) : ∀ b, wcAux b (pyLower s) = wcAux b s := by
  induction s with
  | nil => intro b; rfl
  | cons c s ih =>
    intro b
    have ih' : ∀ b, wcAux b (List.map Char.toLower s) = wcAux b s := ih
    rw [pyLower, List.map_cons, wcAux, wcAux, isSpace_toLower c]
    by_cases h : isSpace c
    · rw [if_pos h, if_pos h, ih' false]
    · rw [if_neg h, if_neg h, ih' true]

theorem rhAux_sublist (s : Str) :
    (rhAux s none).Sublist s ∧
      ∀ buf, (rhAux s (some buf)).Sublist (('<' :: buf.reverse) ++ s) := by
  induction s with
  | nil =>
    constructor
    · exact List.Sublist.refl []
    · intro buf
      rw [List.append_nil]
      exact List.Sublist.refl _
  | cons c rest ih =>
    constructor
    · by_cases h : c = '<'
      · subst h
        rw [rhAux, if_pos rfl]
        exact (ih.2 []).trans (List.Sublist.refl _)
      · rw [rhAux, if_neg h]
        exact ih.1.cons₂ c
    · intro buf
      by_cases h : c = '>'
      · subst h
        rw [rhAux, if_pos rfl]
        exact ih.1.trans ((List.sublist_cons_self '>' rest).trans
          (List.sublist_append_right _ _))
      · by_cases hn : c = '\n'
        · subst hn
          rw [rhAux, if_neg h, if_pos rfl]
          exact ((ih.1.cons₂ '\n').append_left _)
        · rw [rhAux, if_neg h, if_neg hn]
          have := ih.2 (c :: buf)
          have heq : ('<' :: (c :: buf).reverse) ++ rest =
              ('<' :: buf.reverse) ++ c :: rest := by
            simp
          rwa [heq] at this

theorem removeHtml_sublist (s : Str) : (removeHtml s).Sublist s :=
  (rhAux_sublist s).1

theorem ruAux_sublist : ∀ (s : Str) (b : Bool), (ruAux b s).Sublist s := by
  intro s
  induction s with
  | nil => intro b; cases b <;> exact List.Sublist.refl []
  | cons c rest ih =>
    intro b
    cases b with
    | true =>
      by_cases h : isSpace c
      · rw [ruAux, if_pos h]
        exact (ih false).cons₂ c
      · rw [ruAux, if_neg h]
        exact (ih true).cons c
    | false =>
      by_cases h : urlTrigger (c :: rest) = true
      · rw [ruAux, if_pos h]
        exact (ih true).cons c
      · rw [ruAux, if_neg h]
        exact (ih false).cons₂ c

theorem removeUrls_sublist (s : Str) : (removeUrls s).Sublist s :=
  ruAux_sublist s false

theorem filterChars_sublist (s : Str) : (filterChars s).Sublist s :=
  List.filter_sublist s

theorem wordCount_strip_collapse (s : Str) :
    wordCount (pyStrip (collapseWs s)) = wordCount s := by
  rw [strip_collapse_eq_join, wordCount, pySplit_joinWords _ (fun w hw =>
    ⟨(pySplit_wf s w hw).1, (pySplit_wf s w hw).2.1⟩)]
  rfl

/-- Normalization never increases the whitespace-separated word count. -/
theorem wordCount_preprocess_le (s : Str) :
    wordCount (preprocess_text s) ≤ wordCount s := by
  rw [preprocess_text, wordCount_strip_collapse]
  calc wordCount (filterChars (removeUrls (removeHtml (pyLower s))))
      ≤ wordCount (removeUrls (removeHtml (pyLower s))) :=
        wordCount_mono (filterChars_sublist _)
    _ ≤ wordCount (removeHtml (pyLower s)) := wordCount_mono (removeUrls_sublist _)
    _ ≤ wordCount (pyLower s) := wordCount_mono (removeHtml_sublist _)
    _ = wordCount s := by
        rw [← wcAux_false_eq, ← wcAux_false_eq]
        exact wcAux_pyLower s false

/-!
Lemma layer 5: the character classes of normalized output, and the no-op
lemmas showing each preprocessing stage fixes already-normalized text.
-/

theorem mem_preprocess {x : Str} {c : Char} (h : c ∈ preprocess_text x) :
    keepChar c = true ∧ (c = ' ' ∨ c ∈ pyLower x) := by
  rw [preprocess_text, strip_collapse_eq_join] at h
  have hmem :
      c ∈ filterChars (removeUrls (removeHtml (pyLower x))) ∨ c = ' ' := by
    rcases mem_joinWords _ h with ⟨w, hw, hc⟩ | h
    · exact Or.inl ((pySplit_wf _ w hw).2.2 c hc)
    · exact Or.inr h
  rcases hmem with hmem | rfl
  · rcases List.mem_filter.mp hmem with ⟨hin, hkeep⟩
    refine ⟨hkeep, Or.inr ?_⟩
    exact (removeHtml_sublist _).subset ((removeUrls_sublist _).subset hin)
  · exact ⟨by decide, Or.inl rfl⟩

theorem preprocess_canonical (x : Str) :
    joinWords (pySplit (preprocess_text x)) = preprocess_text x := by
  conv_lhs => rw [preprocess_text, strip_collapse_eq_join]
  rw [pySplit_joinWords _ (fun w hw =>
    ⟨(pySplit_wf _ w hw).1, (pySplit_wf _ w hw).2.1⟩)]
  rw [preprocess_text, strip_collapse_eq_join]

theorem pyLower_id {s : Str} (h : ∀ c ∈ s, Char.toLower c = c) : pyLower s = s := by
  induction s with
  | nil => rfl
  | cons c s ih =>
    rw [pyLower, List.map_cons, h c (List.mem_cons_self c s)]
    exact congrArg (c :: ·) (ih (fun e he => h e (List.mem_cons_of_mem c he)))

theorem removeHtml_id {s : Str} (h : '<' ∉ s) : removeHtml s = s := by
  rw [removeHtml]
  induction s with
  | nil => rfl
  | cons c rest ih =>
    have hc : c ≠ '<' := fun he => h (he ▸ List.mem_cons_self c rest)
    rw [rhAux, if_neg hc]
    exact congrArg (c :: ·) (ih (fun he => h (List.mem_cons_of_mem c he)))

theorem mem_of_isPrefixOf {p : Str} {c : Char} (hc : c ∈ p) :
    ∀ {s : Str}, p.isPrefixOf s = true → c ∈ s := by
  induction p with
  | nil => cases hc
  | cons a p' ih =>
    intro s h
    cases s with
    | nil => simp [List.isPrefixOf] at h
    | cons b s' =>
      rw [List.isPrefixOf, Bool.and_eq_true, beq_iff_eq] at h
      rcases List.mem_cons.mp hc with rfl | hc
      · rw [h.1]
        exact List.mem_cons_self b s'
      · exact List.mem_cons_of_mem b (ih hc h.2)

theorem hasSubstr_of_isPrefixOf {p s : Str} (hp : p ≠ [])
    (h : p.isPrefixOf s = true) : hasSubstr p s = true := by
  cases s with
  | nil =>
    cases p with
    | nil => exact absurd rfl hp
    | cons a p' => simp [List.isPrefixOf] at h
  | cons c rest =>
    rw [hasSubstr, h]
    rfl

theorem urlTrigger_false {s : Str} (hcolon : ':' ∉ s)
    (hwww : hasSubstr (("www.").data) s = false) : urlTrigger s = false := by
  rw [urlTrigger]
  have h1 : (("https://").data.isPrefixOf s) = false := by
    cases hp : ("https://").data.isPrefixOf s with
    | false => rfl
    | true => exact absurd (mem_of_isPrefixOf (by decide) hp) hcolon
  have h2 : (("http://").data.isPrefixOf s) = false := by
    cases hp : ("http://").data.isPrefixOf s with
    | false => rfl
    | true => exact absurd (mem_of_isPrefixOf (by decide) hp) hcolon
  have h3 : (("www.").data.isPrefixOf s) = false := by
    cases hp : ("www.").data.isPrefixOf s with
    | false => rfl
    | true => rw [hasSubstr_of_isPrefixOf (by decide) hp] at hwww; cases hwww
  rw [h1, h2, h3]
  rfl

theorem ruAux_id : ∀ {s : Str}, ':' ∉ s →
    hasSubstr (("www.").data) s = false → ruAux false s = s := by
  intro s
  induction s with
  | nil => intro _ _; rfl
  | cons c rest ih =>
    intro hcolon hwww
    rw [ruAux, if_neg (by rw [urlTrigger_false hcolon hwww]; simp)]
    have hrest : hasSubstr (("www.").data) rest = false := by
      rw [hasSubstr, Bool.or_eq_false_iff] at hwww
      exact hwww.2
    exact congrArg (c :: ·)
      (ih (fun he => hcolon (List.mem_cons_of_mem c he)) hrest)

theorem filterChars_id {s : Str} (h : ∀ c ∈ s, keepChar c = true) :
    filterChars s = s :=
  List.filter_eq_self.mpr h

theorem strip_collapse_preprocess (x : Str) :
    pyStrip (collapseWs (preprocess_text x)) = preprocess_text x := by
  rw [strip_collapse_eq_join, preprocess_canonical]

/-- Normalization fixes its own output whenever the special-character filter
did not manufacture a fresh URL-like `www.` token. -/
theorem preprocess_idem_of_no_www {x : Str}
    (h : hasSubstr (("www.").data) (preprocess_text x) = false) :
    preprocess_text (preprocess_text x) = preprocess_text x := by
  have hkeep : ∀ c ∈ preprocess_text x, keepChar c = true :=
    fun c hc => (mem_preprocess hc).1
  have hlow : ∀ c ∈ preprocess_text x, Char.toLower c = c := by
    intro c hc
    rcases (mem_preprocess hc).2 with rfl | hc'
    · decide
    · rcases List.mem_map.mp hc' with ⟨d, _, rfl⟩
      exact toLower_idem d
  have hlt : '<' ∉ preprocess_text x := by
    intro hc
    have := hkeep _ hc
    simp [keepChar, isWordChar, isSpace] at this
  have hcolon : ':' ∉ preprocess_text x := by
    intro hc
    have := hkeep _ hc
    simp [keepChar, isWordChar, isSpace] at this
  conv_lhs => rw [preprocess_text]
  rw [pyLower_id hlow, removeHtml_id hlt, removeUrls, ruAux_id hcolon h,
    filterChars_id hkeep, strip_collapse_preprocess]

/-!
Lemma layer 6: behaviour of the truncation guard and of the two endpoints.
-/

theorem wordCount_join_take (s : Str) (k : Nat) :
    wordCount (joinWords ((pySplit s).take k)) = min k (wordCount s) := by
  rw [wordCount, pySplit_joinWords _ (fun w hw => by
    have hmem : w ∈ pySplit s := (List.take_sublist k (pySplit s)).subset hw
    exact ⟨(pySplit_wf s w hmem).1, (pySplit_wf s w hmem).2.1⟩)]
  rw [List.length_take]
  rfl

theorem truncate250_le (t : Str) : wordCount (truncate250 t) ≤ 250 := by
  rw [truncate250]
  by_cases h : 250 < (pySplit t).length
  · rw [if_pos h, wordCount_join_take]
    omega
  · rw [if_neg h]
    rw [wordCount]
    omega

theorem truncate250_id {t : Str} (h : wordCount t ≤ 250) : truncate250 t = t := by
  rw [truncate250, if_neg (by rw [wordCount] at h; omega)]

theorem batchLimitMsg_ne_recheckMsg (review_id : Option Str) :
    batchLimitMsg review_id ≠ recheckMsg := by
  intro heq
  have h1 : (batchLimitMsg review_id).head? = some 'R' := rfl
  have h2 : recheckMsg.head? = some 'T' := rfl
  rw [heq, h2] at h1
  cases h1

theorem single_processed_text_short {review : ReviewRequest}
    (h : wordCount review.text ≤ 250) :
    single_processed_text review = preprocess_text review.text := by
  rw [single_processed_text]
  have hw : decide (250 < (pySplit review.text).length) = false := by
    rw [wordCount] at h
    simp
    omega
  rw [hw]
  simp

theorem single_processed_text_long {review : ReviewRequest}
    (h : 250 < wordCount review.text) (ht : review.truncate = true) :
    single_processed_text review =
      joinWords ((pySplit (preprocess_text review.text)).take 500) := by
  rw [single_processed_text]
  have hw : decide (250 < (pySplit review.text).length) = true := by
    rw [wordCount] at h
    simpa using h
  rw [hw, ht]
  simp

theorem batch_processed_text_short {review : ReviewRequest}
    (h : wordCount review.text ≤ 250) :
    batch_processed_text review = preprocess_text review.text := by
  rw [batch_processed_text]
  have hw : decide (250 < (pySplit review.text).length) = false := by
    rw [wordCount] at h
    simp
    omega
  rw [hw]
  simp

theorem batch_processed_text_long {review : ReviewRequest}
    (h : 250 < wordCount review.text) (ht : review.truncate = true) :
    batch_processed_text review =
      joinWords ((pySplit (preprocess_text review.text)).take 250) := by
  rw [batch_processed_text]
  have hw : decide (250 < (pySplit review.text).length) = true := by
    rw [wordCount] at h
    simpa using h
  rw [hw, ht]
  simp

theorem analyze_sentiment_reject {review : ReviewRequest}
    (h : 250 < wordCount review.text) (ht : review.truncate = false)
    (classify : Str → RawResult) :
    analyze_sentiment classify review = .error ⟨400, singleLimitMsg⟩ := by
  rw [analyze_sentiment]
  have hw : decide (250 < (pySplit review.text).length) = true := by
    rw [wordCount] at h
    simpa using h
  rw [hw, ht]
  rfl

theorem analyze_sentiment_accept {review : ReviewRequest}
    (h : ¬(250 < wordCount review.text ∧ review.truncate = false))
    (classify : Str → RawResult) :
    analyze_sentiment classify review =
      .ok { sentiment := (SentimentAnalyzer_analyze classify (single_processed_text review)).sentiment
            confidence := (SentimentAnalyzer_analyze classify (single_processed_text review)).confidence
            normalized_score :=
              (SentimentAnalyzer_analyze classify (single_processed_text review)).normalized_score
            detailed_scores :=
              (SentimentAnalyzer_analyze classify (single_processed_text review)).detailed_scores
            review_id := review.review_id
            source := review.source
            truncated := decide (250 < (pySplit review.text).length) && review.truncate } := by
  rw [analyze_sentiment]
  have hcond : (decide (250 < (pySplit review.text).length) && !review.truncate) = false := by
    rw [wordCount] at h
    cases htr : review.truncate with
    | true => simp [htr]
    | false =>
      have : ¬(250 < (pySplit review.text).length) := fun hlt => h ⟨hlt, htr⟩
      simp [this]
  rw [hcond]
  rfl

theorem processBatchItem_reject {review : ReviewRequest}
    (h : 250 < wordCount review.text) (ht : review.truncate = false)
    (classify : Str → RawResult) (g : Bool) :
    processBatchItem classify g review = .error ⟨400, batchLimitMsg review.review_id⟩ := by
  rw [processBatchItem]
  have hw : decide (250 < (pySplit review.text).length) = true := by
    rw [wordCount] at h
    simpa using h
  rw [hasattr_truncate]
  simp only [if_true, hw, ht]
  rfl

theorem wordCount_batch_processed_le (review : ReviewRequest)
    (h : ¬(250 < wordCount review.text ∧ review.truncate = false)) :
    review.truncate = true ∨ wordCount (batch_processed_text review) ≤ 250 := by
  cases htr : review.truncate with
  | true => exact Or.inl rfl
  | false =>
    have hle : wordCount review.text ≤ 250 := by
      by_contra hgt
      exact h ⟨by omega, htr⟩
    right
    rw [batch_processed_text_short hle]
    exact Nat.le_trans (wordCount_preprocess_le review.text) hle

theorem processBatchItem_accept {review : ReviewRequest}
    (h : ¬(250 < wordCount review.text ∧ review.truncate = false))
    (classify : Str → RawResult) (g : Bool) :
    processBatchItem classify g review =
      .ok { sentiment := (SentimentAnalyzer_analyze classify (batch_processed_text review)).sentiment
            confidence := (SentimentAnalyzer_analyze classify (batch_processed_text review)).confidence
            normalized_score :=
              (SentimentAnalyzer_analyze classify (batch_processed_text review)).normalized_score
            detailed_scores :=
              (SentimentAnalyzer_analyze classify (batch_processed_text review)).detailed_scores
            review_id := review.review_id
            source := review.source
            truncated := decide (250 < (pySplit review.text).length) && review.truncate } := by
  rw [processBatchItem]
  have hcond : (decide (250 < (pySplit review.text).length) && !review.truncate) = false := by
    rw [wordCount] at h
    cases htr : review.truncate with
    | true => simp [htr]
    | false =>
      have : ¬(250 < (pySplit review.text).length) := fun hlt => h ⟨hlt, htr⟩
      simp [this]
  have hre : (decide (250 < (pySplit (batch_processed_text review)).length) &&
      !review.truncate) = false := by
    rcases wordCount_batch_processed_le review h with htr | hle
    · simp [htr]
    · rw [wordCount] at hle
      have : ¬(250 < (pySplit (batch_processed_text review)).length) := by omega
      simp [this]
  rw [hasattr_truncate]
  simp only [if_true, hcond, hre]
  rfl

theorem processBatchItem_never_recheck (classify : Str → RawResult) (g : Bool)
    (review : ReviewRequest) :
    processBatchItem classify g review ≠ .error ⟨400, recheckMsg⟩ := by
  by_cases h : 250 < wordCount review.text ∧ review.truncate = false
  · rw [processBatchItem_reject h.1 h.2 classify g]
    intro heq
    injection heq with heq
    exact batchLimitMsg_ne_recheckMsg review.review_id (congrArg HttpError.detail heq)
  · rw [processBatchItem_accept h classify g]
    intro heq
    cases heq

theorem isPrefixOf_append_self : ∀ (p t : Str), p.isPrefixOf (p ++ t) = true := by
  intro p
  induction p with
  | nil => intro t; simp
  | cons a p' ih =>
    intro t
    rw [List.cons_append, List.isPrefixOf, Bool.and_eq_true, beq_iff_eq]
    exact ⟨rfl, ih t⟩

theorem hasSubstr_cons {p : Str} (c : Char) {s : Str} (h : hasSubstr p s = true) :
    hasSubstr p (c :: s) = true := by
  rw [hasSubstr, h, Bool.or_true]

theorem hasSubstr_self_append (p t : Str) : hasSubstr p (p ++ t) = true := by
  cases hpt : p ++ t with
  | nil =>
    have hp : p = [] := by
      cases p with
      | nil => rfl
      | cons a p' => simp at hpt
    subst hp
    rfl
  | cons c rest =>
    rw [hasSubstr, ← hpt, isPrefixOf_append_self]
    rfl

theorem hasSubstr_append_left : ∀ (a : Str) {p s : Str},
    hasSubstr p s = true → hasSubstr p (a ++ s) = true := by
  intro a
  induction a with
  | nil => intro p s h; exact h
  | cons c a' ih => intro p s h; exact hasSubstr_cons c (ih h)

theorem hasSubstr_mid (a p t : Str) : hasSubstr p (a ++ p ++ t) = true := by
  rw [List.append_assoc]
  exact hasSubstr_append_left a (hasSubstr_self_append p t)

theorem batchGo_reject {r : ReviewRequest}
    (hw : 250 < wordCount r.text) (ht : r.truncate = false)
    (classify : Str → RawResult) (g : Bool) (post : List ReviewRequest) :
    ∀ pre : List ReviewRequest,
      (∀ x ∈ pre, ¬(250 < wordCount x.text ∧ x.truncate = false)) →
      batchGo classify g (pre ++ r :: post) = .error ⟨400, batchLimitMsg r.review_id⟩ := by
  intro pre
  induction pre with
  | nil =>
    intro _
    rw [List.nil_append, batchGo, processBatchItem_reject hw ht classify g]
  | cons x pre' ih =>
    intro hpre
    rw [List.cons_append, batchGo,
      processBatchItem_accept (hpre x (List.mem_cons_self x pre')) classify g,
      ih (fun y hy => hpre y (List.mem_cons_of_mem x hy))]

theorem analyze_batch_reject {r : ReviewRequest}
    (hw : 250 < wordCount r.text) (ht : r.truncate = false)
    (classify : Str → RawResult) (g : Bool)
    (pre post : List ReviewRequest)
    (hpre : ∀ x ∈ pre, ¬(250 < wordCount x.text ∧ x.truncate = false)) :
    analyze_batch classify ⟨pre ++ r :: post, g⟩ =
      .error ⟨400, batchLimitMsg r.review_id⟩ := by
  rw [analyze_batch]
  simp only
  rw [batchGo_reject hw ht classify g post pre hpre]

theorem processBatchItem_global (classify : Str → RawResult) (g1 g2 : Bool)
    (r : ReviewRequest) :
    processBatchItem classify g1 r = processBatchItem classify g2 r := rfl

theorem batchGo_global (classify : Str → RawResult) (g1 g2 : Bool) :
    ∀ reviews : List ReviewRequest,
      batchGo classify g1 reviews = batchGo classify g2 reviews := by
  intro reviews
  induction reviews with
  | nil => rfl
  | cons r rs ih =>
    rw [batchGo, batchGo, processBatchItem_global classify g1 g2 r, ih]

/-!
The claims.
-/

/-- C4 (counterexample): normalization is NOT idempotent for every string.
For the input `"w;ww.foo"` the special-character filter deletes the `;` and
manufactures the URL-like token `"www.foo"`, which a second normalization
pass deletes entirely: `preprocess_text (preprocess_text x) = ""` while
`preprocess_text x = "www.foo"`. -/
theorem C4_not_idempotent_cex :
    preprocess_text (preprocess_text (("w;ww.foo").data)) ≠
      preprocess_text (("w;ww.foo").data) := by decide

/-- C4 (amended): normalization is idempotent on every input whose normalized
output contains no `"www."` substring — the only way a second pass can act,
since the filter step already removed `<`, `>` and `:` so neither the HTML
rule nor the `http(s)://` alternative can fire again. -/
theorem C4_idempotent_no_www (x : Str)
    (h : hasSubstr (("www.").data) (preprocess_text x) = false) :
    preprocess_text (preprocess_text x) = preprocess_text x :=
  preprocess_idem_of_no_www h

/-- C4 (witness): the amended idempotence applied to a concrete review text. -/
theorem C4_idempotent_witness :
    hasSubstr (("www.").data)
        (preprocess_text (("Hello <b>World</b>! See https://x.com now").data)) = false ∧
      preprocess_text (preprocess_text (("Hello <b>World</b>! See https://x.com now").data)) =
        preprocess_text (("Hello <b>World</b>! See https://x.com now").data) :=
  ⟨by decide, C4_idempotent_no_www _ (by decide)⟩

/-- C5 (counterexample): the output of `preprocess_text` is NOT contained in
alphanumerics, whitespace and `. , ! ?`: the Python class `\w` also keeps the
underscore, so `preprocess_text "_" = "_"` escapes the claimed character set. -/
theorem C5_charset_cex :
    '_' ∈ preprocess_text (("_").data) ∧
    (('_').isAlphanum || isSpace '_' || '_' = '.' || '_' = ',' ||
      '_' = '!' || '_' = '?') = false := by
  decide

/-- C5 (amended): every character of `preprocess_text x` is an alphanumeric,
an underscore, whitespace, or one of `. , ! ?` — the claimed character set
extended by the underscore that `\w` keeps. -/
theorem C5_charset (x : Str) (c : Char) (h : c ∈ preprocess_text x) :
    (c.isAlphanum || c = '_' || isSpace c || c = '.' || c = ',' ||
      c = '!' || c = '?') = true := by
  have hk := (mem_preprocess h).1
  simp only [keepChar, isWordChar, Bool.or_eq_true] at hk ⊢
  tauto

/-- C5 (witness): the amended character-set bound applied to a concrete
character of a concrete normalized output. -/
theorem C5_charset_witness :
    'a' ∈ preprocess_text (("An_example!").data) ∧
      (('a').isAlphanum || 'a' = '_' || isSpace 'a' || 'a' = '.' || 'a' = ',' ||
        'a' = '!' || 'a' = '?') = true :=
  ⟨by decide, C5_charset (("An_example!").data) 'a' (by decide)⟩

/-- C6: for every raw classifier result with score in `[0,1]`, the detailed
scores sum to exactly one, the winning label receives the score and the other
label receives one minus the score. -/
theorem C6_detailed_scores (r : RawResult) (_h0 : 0 ≤ r.score) (_h1 : r.score ≤ 1) :
    (scoreMap r).detailed_scores.POSITIVE + (scoreMap r).detailed_scores.NEGATIVE = 1 ∧
    (r.label = ("POSITIVE").data →
      (scoreMap r).detailed_scores.POSITIVE = r.score ∧
      (scoreMap r).detailed_scores.NEGATIVE = 1 - r.score) ∧
    (r.label = ("NEGATIVE").data →
      (scoreMap r).detailed_scores.NEGATIVE = r.score ∧
      (scoreMap r).detailed_scores.POSITIVE = 1 - r.score) := by
  refine ⟨?_, fun hpos => ⟨?_, ?_⟩, fun hneg => ⟨?_, ?_⟩⟩
  · by_cases hl : r.label = ("POSITIVE").data
    · simp [scoreMap, hl]
      try ring
    · simp [scoreMap, hl]
      try ring
  · simp [scoreMap, hpos]
  · simp [scoreMap, hpos]
  · have hl : ¬r.label = ("POSITIVE").data := by
      rw [hneg]
      decide
    simp [scoreMap, hl]
  · have hl : ¬r.label = ("POSITIVE").data := by
      rw [hneg]
      decide
    simp [scoreMap, hl]

/-- C6 (witness): the detailed-scores sum at the concrete result
`{label := "POSITIVE", score := 1}`. -/
theorem C6_detailed_scores_witness :
    (scoreMap ⟨("POSITIVE").data, 1⟩).detailed_scores.POSITIVE +
      (scoreMap ⟨("POSITIVE").data, 1⟩).detailed_scores.NEGATIVE = 1 :=
  (C6_detailed_scores ⟨("POSITIVE").data, 1⟩ (by decide) (by decide)).1

/-- C7 (counterexample): the sign property fails at the boundary score 0,
which lies in the claimed range `[0,1]`: the result is labelled `positive`
but its normalized score is 0, not strictly positive. -/
theorem C7_sign_cex :
    ((0 : ℚ) ≤ 0 ∧ (0 : ℚ) ≤ 1) ∧
    (scoreMap ⟨("POSITIVE").data, 0⟩).sentiment = ("positive").data ∧
    ¬(0 < (scoreMap ⟨("POSITIVE").data, 0⟩).normalized_score) := by decide

/-- C7 (amended): for every classifier result with score in `(0,1]` — strictly
positive, as forced by the boundary counterexample — the sign of
`normalized_score` matches the sentiment. -/
theorem C7_sign (r : RawResult) (h0 : 0 < r.score) (_h1 : r.score ≤ 1) :
    ((scoreMap r).sentiment = ("positive").data → 0 < (scoreMap r).normalized_score) ∧
    ((scoreMap r).sentiment = ("negative").data → (scoreMap r).normalized_score < 0) := by
  by_cases hl : r.label = ("POSITIVE").data
  · constructor
    · intro _
      simpa [scoreMap, hl] using h0
    · intro hneg
      simp [scoreMap, hl] at hneg
  · constructor
    · intro hpos
      simp [scoreMap, hl] at hpos
    · intro _
      simp only [scoreMap, hl, if_false, ite_false]
      simpa [scoreMap, hl] using h0

/-- C7 (witness): the amended sign property at the concrete result
`{label := "POSITIVE", score := 1}`. -/
theorem C7_sign_witness :
    0 < (scoreMap ⟨("POSITIVE").data, 1⟩).normalized_score :=
  (C7_sign ⟨("POSITIVE").data, 1⟩ (by decide) (by decide)).1 (by decide)

/-- C1: for a request whose raw text has more than 250 whitespace-separated
words and whose effective truncate flag is true, both endpoints return a
response with `truncated = true`, and the normalized text is truncated to the
first 500 words on the single-item path but to the first 250 words on the
batch path. -/
theorem C1_truncation (review : ReviewRequest) (classify : Str → RawResult) (g : Bool)
    (hw : 250 < wordCount review.text) (ht : review.truncate = true) :
    (∃ resp, analyze_sentiment classify review = .ok resp ∧ resp.truncated = true) ∧
    single_processed_text review =
      joinWords ((pySplit (preprocess_text review.text)).take 500) ∧
    wordCount (single_processed_text review) =
      min 500 (wordCount (preprocess_text review.text)) ∧
    (∃ resp, processBatchItem classify g review = .ok resp ∧ resp.truncated = true) ∧
    batch_processed_text review =
      joinWords ((pySplit (preprocess_text review.text)).take 250) ∧
    wordCount (batch_processed_text review) =
      min 250 (wordCount (preprocess_text review.text)) := by
  have hnot : ¬(250 < wordCount review.text ∧ review.truncate = false) := by
    rintro ⟨_, hf⟩
    rw [ht] at hf
    cases hf
  have htrunc : (decide (250 < (pySplit review.text).length) && review.truncate) = true := by
    rw [ht, Bool.and_true]
    rw [wordCount] at hw
    simpa using hw
  refine ⟨⟨_, analyze_sentiment_accept hnot classify, htrunc⟩,
    single_processed_text_long hw ht, ?_,
    ⟨_, processBatchItem_accept hnot classify g, htrunc⟩,
    batch_processed_text_long hw ht, ?_⟩
  · rw [single_processed_text_long hw ht, wordCount_join_take]
  · rw [batch_processed_text_long hw ht, wordCount_join_take]

set_option maxRecDepth 100000 in
/-- C1 (witness): a concrete 251-word review with truncation enabled is
accepted with `truncated = true` on both paths. -/
theorem C1_truncation_witness :
    (∃ resp, analyze_sentiment constPos { text := longText251 } = .ok resp ∧
        resp.truncated = true) ∧
    (∃ resp, processBatchItem constPos true { text := longText251 } = .ok resp ∧
        resp.truncated = true) :=
  ⟨(C1_truncation { text := longText251 } constPos true (by decide) rfl).1,
   (C1_truncation { text := longText251 } constPos true (by decide) rfl).2.2.2.1⟩

/-- C2: a text of more than 250 raw words with truncation disabled makes the
single endpoint fail with status 400 regardless of the classifier, makes the
batch endpoint fail with status 400 regardless of the classifier as soon as
the offending item is reached (no partial results: the whole batch returns
only the error), and the batch error message contains the offending item's
review_id as a substring. -/
theorem C2_reject (review : ReviewRequest)
    (hw : 250 < wordCount review.text) (ht : review.truncate = false) :
    (∀ classify : Str → RawResult,
      analyze_sentiment classify review = .error ⟨400, singleLimitMsg⟩) ∧
    (∀ (classify : Str → RawResult) (g : Bool) (pre post : List ReviewRequest),
      (∀ x ∈ pre, ¬(250 < wordCount x.text ∧ x.truncate = false)) →
      analyze_batch classify ⟨pre ++ review :: post, g⟩ =
        .error ⟨400, batchLimitMsg review.review_id⟩) ∧
    (∀ s, review.review_id = some s →
      hasSubstr s (batchLimitMsg review.review_id) = true) := by
  refine ⟨fun classify => analyze_sentiment_reject hw ht classify,
    fun classify g pre post hpre => analyze_batch_reject hw ht classify g pre post hpre,
    fun s hs => ?_⟩
  rw [hs, batchLimitMsg]
  exact hasSubstr_mid _ s _

set_option maxRecDepth 100000 in
/-- C2 (witness): a concrete 251-word review with truncation disabled is
rejected with 400 on both paths, and the batch detail contains its id. -/
theorem C2_reject_witness :
    analyze_sentiment constPos
      { text := longText251, review_id := some (("r1").data), truncate := false } =
      .error ⟨400, singleLimitMsg⟩ ∧
    analyze_batch constPos
      ⟨[{ text := longText251, review_id := some (("r1").data), truncate := false }],
        true⟩ =
      .error ⟨400, batchLimitMsg (some (("r1").data))⟩ ∧
    hasSubstr (("r1").data) (batchLimitMsg (some (("r1").data))) = true :=
  ⟨(C2_reject { text := longText251, review_id := some (("r1").data), truncate := false }
      (by decide) rfl).1 constPos,
   (C2_reject { text := longText251, review_id := some (("r1").data), truncate := false }
      (by decide) rfl).2.1 constPos true [] [] (by intro x hx; cases hx),
   (C2_reject { text := longText251, review_id := some (("r1").data), truncate := false }
      (by decide) rfl).2.2 (("r1").data) rfl⟩

set_option maxRecDepth 100000 in
/-- C3 (counterexample): the Length Policy does NOT measure word count on the
normalized text.  A text of 251 raw words whose normalization has only 250
words (the last raw word `";"` is erased by the filter) still gets
`truncated = true`: the code measures the raw `review.text.split()`. -/
theorem C3_normalized_measure_cex :
    wordCount (preprocess_text fauxLongText) ≤ 250 ∧
    (analyze_sentiment constPos { text := fauxLongText }).map
      SentimentResponse.truncated = .ok true := by decide

/-- C3 (amended): for every request whose RAW text has at most 250
whitespace-separated words — the code measures `review.text.split()` before
normalization — the response has `truncated = false` and the classifier
receives exactly the normalized text: the 500-word truncation is not applied,
and the model wrapper's own 250-word guard is a no-op on it. -/
theorem C3_short_input (review : ReviewRequest) (classify : Str → RawResult)
    (hw : wordCount review.text ≤ 250) :
    (∃ resp, analyze_sentiment classify review = .ok resp ∧ resp.truncated = false) ∧
    single_processed_text review = preprocess_text review.text ∧
    truncate250 (single_processed_text review) = preprocess_text review.text ∧
    wordCount (single_processed_text review) = wordCount (preprocess_text review.text) := by
  have hnot : ¬(250 < wordCount review.text ∧ review.truncate = false) := by
    rintro ⟨hgt, _⟩
    omega
  have hfalse : decide (250 < (pySplit review.text).length) = false := by
    rw [wordCount] at hw
    simp
    omega
  refine ⟨⟨_, analyze_sentiment_accept hnot classify, ?_⟩,
    single_processed_text_short hw, ?_, ?_⟩
  · rw [hfalse]
    rfl
  · rw [single_processed_text_short hw]
    exact truncate250_id (Nat.le_trans (wordCount_preprocess_le _) hw)
  · rw [single_processed_text_short hw]

/-- C3 (witness): a concrete short review is analyzed untruncated. -/
theorem C3_short_input_witness :
    ∃ resp, analyze_sentiment constPos { text := ("good stuff").data } = .ok resp ∧
      resp.truncated = false :=
  (C3_short_input { text := ("good stuff").data } constPos (by decide)).1

/-- C8: normalization never increases the whitespace-separated word count, so
the batch loop's post-normalization recheck can never fire: `processBatchItem`
never returns the "too long after preprocessing" error (under the pre-check,
a surviving item either has truncation enabled — making the recheck's
conjunction false — or at most 250 raw words, and then at most 250 normalized
words). -/
theorem C8_recheck_unreachable :
    (∀ s : Str, wordCount (preprocess_text s) ≤ wordCount s) ∧
    (∀ (classify : Str → RawResult) (g : Bool) (review : ReviewRequest),
      processBatchItem classify g review ≠ .error ⟨400, recheckMsg⟩) :=
  ⟨wordCount_preprocess_le, processBatchItem_never_recheck⟩

/-- C8 (witness): the word-count bound and the recheck unreachability at a
concrete input. -/
theorem C8_recheck_unreachable_witness :
    wordCount (preprocess_text (("a   b; c!").data)) ≤ wordCount (("a   b; c!").data) ∧
    processBatchItem constPos true { text := ("a   b; c!").data } ≠
      .error ⟨400, recheckMsg⟩ :=
  ⟨C8_recheck_unreachable.1 (("a   b; c!").data),
   C8_recheck_unreachable.2 constPos true { text := ("a   b; c!").data }⟩

/-- C9: the model wrapper unconditionally caps its input at 250 words: every
text handed to `SentimentAnalyzer_analyze` is first passed through
`truncate250`, whose output always has at most 250 whitespace-separated
words — so the pipeline never sees more than 250 words even after the single
path's 500-word truncation. -/
theorem C9_model_word_cap :
    (∀ t : Str, wordCount (truncate250 t) ≤ 250) ∧
    (∀ (classify : Str → RawResult) (t : Str),
      SentimentAnalyzer_analyze classify t = scoreMap (classify (truncate250 t))) :=
  ⟨truncate250_le, fun _ _ => rfl⟩

/-- C10: the batch response never depends on the batch-level global truncate
flag: every parsed `ReviewRequest` carries its own `truncate` attribute (the
field has a declared default), so the `hasattr` guard is always true and the
global-default assignment is dead code. -/
theorem C10_batch_global_flag_irrelevant (classify : Str → RawResult)
    (reviews : List ReviewRequest) (g1 g2 : Bool) :
    analyze_batch classify ⟨reviews, g1⟩ = analyze_batch classify ⟨reviews, g2⟩ := by
  simp only [analyze_batch]
  rw [batchGo_global classify g1 g2 reviews]
